import Mathlib

/-!
Verification development for `ncdlib` (`src/ncdlib.py`), a Python implementation of
the Normalized Compression Distance (NCD).

The embedding models the module's operations over an explicit filesystem state:
files are identified by paths (`FPath`) and carry only their byte size, which is
the only attribute the source ever reads (`os.stat(...).st_size`).  External
compression tools are opaque processes; their observable behaviour (exit status,
whether the expected output file was produced and its size, whether the working
copy was destroyed/renamed in place) is an abstract parameter `ToolModel`, keyed
by the binary name and the size of the file being compressed.  Python exceptions
are modelled by `Except PyErr`; an uncaught exception aborts the computation but
leaves the filesystem state as it was at the raise point, exactly like a
propagating Python exception.
-/

namespace Ncdlib

/-- Paths: the two caller-supplied input files live outside the working
directory; `tmp k` is the `k`-th file created by `tempfile.mkstemp` in the
working directory; `withSuffix p s` is the path string `p + s`, as produced by
the `"%s.lz" % infile` style templates. -/
inductive FPath where
  | input : Nat → FPath
  | tmp : Nat → FPath
  | withSuffix : FPath → String → FPath
deriving DecidableEq, Repr

/-- Python exception kinds raised by the code paths of the module. -/
inductive PyErr where
  /-- tuple unpacking with the wrong arity -/
  | valueError : PyErr
  /-- arithmetic/comparison involving `None` -/
  | typeError : PyErr
  /-- Division `x / 0` -/
  | zeroDivisionError : PyErr
  /-- missing dictionary key -/
  | keyError : PyErr
  /-- Calls to `os.stat` / `os.remove` on a missing path (`FileNotFoundError`, an `OSError`) -/
  | fileNotFoundError : PyErr
  /-- Copying via `shutil.copy` from a missing source -/
  | ioError : PyErr
  /-- Dispatch via `eval` to an unknown `_compress_<name>` function -/
  | nameError : PyErr
deriving DecidableEq, Repr

/-- Decidable equality of `Except` results, for evaluating runs on closed inputs. -/
instance {ε α : Type} [DecidableEq ε] [DecidableEq α] : DecidableEq (Except ε α) := fun a b =>
  match a, b with
  | .error e, .error f =>
      if h : e = f then .isTrue (by rw [h]) else
        .isFalse (by intro hh; injection hh; contradiction)
  | .ok x, .ok y =>
      if h : x = y then .isTrue (by rw [h]) else
        .isFalse (by intro hh; injection hh; contradiction)
  | .error _, .ok _ => .isFalse (fun hh => Except.noConfusion hh)
  | .ok _, .error _ => .isFalse (fun hh => Except.noConfusion hh)

/-- The filesystem: sizes of existing files, plus the `mkstemp` counter that
generates fresh working-directory names. -/
structure FS where
  files : FPath → Option Nat
  counter : Nat

/-- Initial state for a run on two input files of sizes `sx` and `sy`. -/
def FS.init (sx sy : Nat) : FS where
  files := fun p =>
    match p with
    | .input 0 => some sx
    | .input 1 => some sy
    | _ => none
  counter := 0

def FS.set (fs : FS) (p : FPath) (n : Nat) : FS :=
  { fs with files := fun q => if q = p then some n else fs.files q }

def FS.del (fs : FS) (p : FPath) : FS :=
  { fs with files := fun q => if q = p then none else fs.files q }

/-- State-and-exception monad: Python code threading the real filesystem, where
an uncaught exception aborts with the state at the raise point. -/
def M (α : Type) : Type := FS → Except PyErr α × FS

def M.pure (a : α) : M α := fun s => (.ok a, s)

def M.bind (x : M α) (f : α → M β) : M β := fun s =>
  match x s with
  | (.ok a, s') => f a s'
  | (.error e, s') => (.error e, s')

instance : Monad M where
  pure := M.pure
  bind := M.bind

/-- Raise an exception. -/
def M.throw (e : PyErr) : M α := fun s => (.error e, s)

/-- Embed a pure `Except` computation. -/
def liftE (x : Except PyErr α) : M α := fun s => (x, s)

/-- Model of `tempfile.mkstemp(dir=tmp_dir)`: creates a fresh, uniquely named, empty file
and returns its path. -/
def mkstemp : M FPath := fun s =>
  (.ok (.tmp s.counter),
   { files := fun q => if q = FPath.tmp s.counter then some 0 else s.files q,
     counter := s.counter + 1 })

/-- Model of `shutil.copy(src, dst)`: raises if the source is unreadable. -/
def copyFile (src dst : FPath) : M Unit := fun s =>
  match s.files src with
  | some n => (.ok (), s.set dst n)
  | none => (.error .ioError, s)

/-- Model of `os.stat(p).st_size`: raises `FileNotFoundError` if `p` does not exist. -/
def statSize (p : FPath) : M Nat := fun s =>
  match s.files p with
  | some n => (.ok n, s)
  | none => (.error .fileNotFoundError, s)

/-- A bare `os.remove(p)`: raises (an `OSError`) if `p` does not exist. -/
def removeStrict (p : FPath) : M Unit := fun s =>
  match s.files p with
  | some _ => (.ok (), s.del p)
  | none => (.error .fileNotFoundError, s)

/-- Best-effort deletion: `try: os.remove(p) except OSError: pass`. -/
def tryRemove (p : FPath) : M Unit := fun s => (.ok (), s.del p)

/-- Observable behaviour of one external compressor invocation. -/
structure ToolRun where
  /-- did the process exit with status 0 (`subprocess.check_output` not raising)? -/
  exitZero : Bool
  /-- did it leave the expected output file (`<infile><suffix>`) behind? -/
  producesOutput : Bool
  /-- size of that output file when produced -/
  outputSize : Nat
  /-- did it destroy/rename the working copy in place (as gzip etc. do)? -/
  removesInput : Bool

/-- Abstract model of the host's external tools: behaviour of running binary
`bin` on a file of a given size. -/
def ToolModel : Type := String → Nat → ToolRun

/-- Run the external command: apply its filesystem effects and report whether
it exited with status 0.  Effects happen whatever the exit status. -/
def runTool (tool : ToolModel) (bin : String) (infile result : FPath) : M Bool := fun s =>
  let r := tool bin ((s.files infile).getD 0)
  let s1 := if r.removesInput then s.del infile else s
  let s2 := if r.producesOutput then s1.set result r.outputSize else s1
  (.ok r.exitZero, s2)

/-! The compressor registry (`KNOWN_COMPRESSORS`, lines 35-37): a value is
either a single binary name or a preference-ordered list of them. -/

inductive Candidates where
  | one : String → Candidates
  | many : List String → Candidates
deriving DecidableEq, Repr

def Candidates.toList : Candidates → List String
  | .one b => [b]
  | .many l => l

def KNOWN_COMPRESSORS : List (String × Candidates) :=
  [("LZMA", .many ["plzip", "lzip"]), ("BZIP2", .one "bzip2"), ("LZ77", .one "gzip"),
   ("LZW", .one "compress"), ("PPMZ", .many ["ppmz", "static-ppmz"]),
   ("PPMD", .one "ppmd"), ("PAQ", .one "paq8l")]

/-- The inner loop of `available_compressors` over a preference list:
first binary for which `_cmd_exists` holds.  `_cmd_exists` (a `which` probe)
is abstracted by the host predicate `ce`. -/
def firstAvailable (ce : String → Bool) : List String → Option String
  | [] => none
  | t :: ts => if ce t then some t else firstAvailable ce ts

/-- Model of `available_compressors()` (lines 58-73), as the ordered association list the
Python dict builds: for a list of candidates take the first available one, for a
single binary take it iff available; families with no usable binary are left out. -/
def avail_aux (ce : String → Bool) : List (String × Candidates) → List (String × String)
  | [] => []
  | (name, .many l) :: rest =>
      match firstAvailable ce l with
      | some tool => (name, tool) :: avail_aux ce rest
      | none => avail_aux ce rest
  | (name, .one b) :: rest =>
      if ce b then (name, b) :: avail_aux ce rest else avail_aux ce rest

def available_compressors (ce : String → Bool) : List (String × String) :=
  avail_aux ce KNOWN_COMPRESSORS

/-- Model of `_compress_any(cmd, result)` (lines 75-92): run the command; on success
return the expected output path, on `CalledProcessError` try to delete the
expected output (ignoring `OSError`) and return `None`. -/
def compress_any (tool : ToolModel) (bin : String) (infile result : FPath) :
    M (Option FPath) := do
  let ok ← runTool tool bin infile result
  if ok then
    pure (some result)
  else do
    -- try: os.remove(result) except OSError: pass  (lines 84-89)
    tryRemove result
    pure none

/-- Model of `_compress_lzma` (lines 94-100): `cmd = "%s -f --best %s"`, output `%s.lz`. -/
def compress_lzma (tool : ToolModel) (infile : FPath) (binary : String) : M (Option FPath) :=
  compress_any tool binary infile (.withSuffix infile ".lz")

/-- Model of `_compress_bzip2` (lines 102-108): `cmd = "%s -z -f --best %s"`, output `%s.bz2`. -/
def compress_bzip2 (tool : ToolModel) (infile : FPath) (binary : String) : M (Option FPath) :=
  compress_any tool binary infile (.withSuffix infile ".bz2")

/-- Model of `_compress_lz77` (lines 110-116): `cmd = "%s -f --best %s"`, output `%s.gz`. -/
def compress_lz77 (tool : ToolModel) (infile : FPath) (binary : String) : M (Option FPath) :=
  compress_any tool binary infile (.withSuffix infile ".gz")

/-- Model of `_compress_lzw` (lines 118-124): `cmd = "%s -f %s"`, output `%s.Z`. -/
def compress_lzw (tool : ToolModel) (infile : FPath) (binary : String) : M (Option FPath) :=
  compress_any tool binary infile (.withSuffix infile ".Z")

/-- Model of `_compress_ppmz` (lines 126-132): output `%s.ppmz`. -/
def compress_ppmz (tool : ToolModel) (infile : FPath) (binary : String) : M (Option FPath) :=
  compress_any tool binary infile (.withSuffix infile ".ppmz")

/-- Model of `_compress_ppmd` (lines 134-140): output `%s.ppmd`. -/
def compress_ppmd (tool : ToolModel) (infile : FPath) (binary : String) : M (Option FPath) :=
  compress_any tool binary infile (.withSuffix infile ".ppmd")

/-- Model of `_compress_paq` (lines 142-148): `cmd = "%s -8 %s"`, output `%s.paq8l`. -/
def compress_paq (tool : ToolModel) (infile : FPath) (binary : String) : M (Option FPath) :=
  compress_any tool binary infile (.withSuffix infile ".paq8l")

/-- Model of `os.system("cat %s %s > %s" ...)`: writes the concatenation; the return value
is ignored by the source, and an unreadable input contributes nothing. -/
def catInto (file1 file2 dst : FPath) : M Unit := fun s =>
  (.ok (), s.set dst ((s.files file1).getD 0 + (s.files file2).getD 0))

/-- Model of `_concat(file1, file2, tmp_dir)` (lines 150-162): make a fresh temporary
file holding the concatenation and return its path; deleting it is the
caller's responsibility. -/
def concat (file1 file2 : FPath) : M FPath := do
  let tmp_path ← mkstemp
  catInto file1 file2 tmp_path
  pure tmp_path

/-- The `eval("_compress_%s(...)" % compressor_name.lower())` dispatch of line
186-187: a name outside the known set is a `NameError`. -/
def dispatch (tool : ToolModel) (compressor_name : String) (tmp_path : FPath)
    (compressor_binary : String) : M (Option FPath) :=
  match compressor_name with
  | "LZMA" => compress_lzma tool tmp_path compressor_binary
  | "BZIP2" => compress_bzip2 tool tmp_path compressor_binary
  | "LZ77" => compress_lz77 tool tmp_path compressor_binary
  | "LZW" => compress_lzw tool tmp_path compressor_binary
  | "PPMZ" => compress_ppmz tool tmp_path compressor_binary
  | "PPMD" => compress_ppmd tool tmp_path compressor_binary
  | "PAQ" => compress_paq tool tmp_path compressor_binary
  | _ => M.throw .nameError

/-- Model of `_compress(infile, tmp_dir, compressor_name, compressor_binary)`
(lines 164-205): copy the input to a fresh working file, compress it, and
return the compressed size, or `None` on compressor failure. -/
def compress (tool : ToolModel) (infile : FPath) (compressor_name compressor_binary : String) :
    M (Option Nat) := do
  let tmp_path ← mkstemp
  copyFile infile tmp_path
  let compressed_file ← dispatch tool compressor_name tmp_path compressor_binary
  match compressed_file with
  | some p => do
      let size ← statSize p                -- os.stat(compressed_file).st_size (line 190)
      removeStrict p                       -- os.remove(compressed_file) (line 192)
      tryRemove tmp_path                   -- try: os.remove(tmp_path) except OSError (196-199)
      pure (some size)
  | none => do
      removeStrict tmp_path                -- bare os.remove(tmp_path) (line 204)
      pure none

/-- Model of `_compressed_values` (lines 207-226).  The source returns the 4-tuple
`(cx, cy, cxy, cyx)` when every measurement succeeded, and otherwise the
**3-tuple** `(None, None, None)` of line 226; both are modelled as lists of
optional sizes so the arity mismatch is preserved. -/
def compressed_values (tool : ToolModel) (input_x input_y : FPath)
    (compressor_name compressor_binary : String) : M (List (Option Nat)) := do
  let cx ← compress tool input_x compressor_name compressor_binary
  let cy ← compress tool input_y compressor_name compressor_binary
  let input_xy ← concat input_x input_y
  let cxy ← compress tool input_xy compressor_name compressor_binary
  let input_yx ← concat input_y input_x
  let cyx ← compress tool input_yx compressor_name compressor_binary
  removeStrict input_xy                    -- os.remove(input_xy) (line 220)
  removeStrict input_yx                    -- os.remove(input_yx) (line 221)
  if cx.isSome && cy.isSome && cxy.isSome && cyx.isSome then
    pure [cx, cy, cxy, cyx]
  else
    pure [none, none, none]

/-- The `(cx, cy, cxy, cyx) = ...` unpacking (lines 254, 266) followed by the
integer arithmetic on the four components: a tuple of the wrong arity raises
`ValueError` at the unpacking, and a 4-tuple still containing `None` raises
`TypeError` at the first `min`/arithmetic on it (Python 3 forbids comparing
`None` with `int`). -/
def toSizes (r : List (Option Nat)) : Except PyErr (Nat × Nat × Nat × Nat) :=
  match r with
  | [some cx, some cy, some cxy, some cyx] => .ok (cx, cy, cxy, cyx)
  | [_, _, _, _] => .error .typeError
  | _ => .error .valueError

/-- Line 275: `d = (min(cxy, cyx)-min(cx, cy))/max(cx, cy)` — true division,
raising `ZeroDivisionError` when the denominator is 0. -/
def ncd_formula (cx cy cxy cyx : Nat) : Except PyErr ℚ :=
  if max cx cy = 0 then .error .zeroDivisionError
  else .ok ((((min cxy cyx : Nat) : ℚ) - ((min cx cy : Nat) : ℚ)) / ((max cx cy : Nat) : ℚ))

/-- Return value of `compute_ncd`: the bare distance, or in verbose mode the
tuple `(cx, cy, cxy, cyx, d)` (lines 276-278). -/
inductive NCDRet where
  | dist : ℚ → NCDRet
  | tuple5 : Nat → Nat → Nat → Nat → ℚ → NCDRet
deriving DecidableEq, Repr

/-- Lines 273-278: apply the distance formula once and shape the return value
according to `verbose`. -/
def finish (verbose : Bool) (cx cy cxy cyx : Nat) : M NCDRet := do
  let d ← liftE (ncd_formula cx cy cxy cyx)
  if verbose then pure (.tuple5 cx cy cxy cyx d) else pure (.dist d)

/-- The best-of-all loop of lines 265-272: for each available family, unpack
its quadruple (`toSizes`, which also accounts for the `min(_, None)`
`TypeError`) and fold each component into the running minimum. -/
def best_loop (tool : ToolModel) (input_x input_y : FPath) :
    List (String × String) → Nat → Nat → Nat → Nat → M (Nat × Nat × Nat × Nat)
  | [], cx, cy, cxy, cyx => pure (cx, cy, cxy, cyx)
  | (c, bin) :: rest, cx, cy, cxy, cyx => do
      let r ← compressed_values tool input_x input_y c bin
      let (ncx, ncy, ncxy, ncyx) ← liftE (toSizes r)
      best_loop tool input_x input_y rest (min cx ncx) (min cy ncy) (min cxy ncxy) (min cyx ncyx)

/-- Model of `compute_ncd(input_x, input_y, compressor, tmp_dir, verbose)` (lines
228-278).  `ce` abstracts the host (`_cmd_exists`), `tool` the external
compressors' behaviour. -/
def compute_ncd (ce : String → Bool) (tool : ToolModel) (input_x input_y : FPath)
    (compressor : Option String) (verbose : Bool) : M NCDRet := do
  let compressor_binary := available_compressors ce
  match compressor with
  | some c =>
      -- compressor_binary[compressor]: KeyError when the family is unavailable
      match List.lookup c compressor_binary with
      | some bin => do
          let r ← compressed_values tool input_x input_y c bin
          let (cx, cy, cxy, cyx) ← liftE (toSizes r)
          finish verbose cx cy cxy cyx
      | none => M.throw .keyError
  | none => do
      -- worst possible values (lines 258-262)
      let sx ← statSize input_x
      let sy ← statSize input_y
      let cx := 10 * sx
      let cy := 10 * sy
      let cxy := cx + cy
      let cyx := cx + cy
      let (cx, cy, cxy, cyx) ← best_loop tool input_x input_y compressor_binary cx cy cxy cyx
      finish verbose cx cy cxy cyx




/-- which families have a `_compress_<fam>` function, and its output suffix -/
def familySuffix : String → Option String
  | "LZMA" => some ".lz"
  | "BZIP2" => some ".bz2"
  | "LZ77" => some ".gz"
  | "LZW" => some ".Z"
  | "PPMZ" => some ".ppmz"
  | "PPMD" => some ".ppmd"
  | "PAQ" => some ".paq8l"
  | _ => none

def WellBehaved (tool : ToolModel) : Prop :=
  ∀ bin n, ((tool bin n).exitZero = false → (tool bin n).removesInput = false) ∧
    ((tool bin n).exitZero = true → (tool bin n).producesOutput = true)

def FS.fresh (fs : FS) : Prop :=
  ∀ k s, fs.counter ≤ k →
    fs.files (FPath.tmp k) = none ∧ fs.files (FPath.withSuffix (FPath.tmp k) s) = none

/-- The size measurement `_compress` produces for a file of size `n`: the
output size on exit 0, `None` otherwise (for a well-behaved tool). -/
def measured (tool : ToolModel) (bin : String) (n : Nat) : Option Nat :=
  if (tool bin n).exitZero then some (tool bin n).outputSize else none

/-- What `_compressed_values` returns for input sizes `a`, `b` under a
well-behaved tool: the quadruple of measurements, or the `(None, None, None)`
triple when any of the four is absent. -/
def quadList (tool : ToolModel) (bin : String) (a b : Nat) : List (Option Nat) :=
  let cx := measured tool bin a
  let cy := measured tool bin b
  let cxy := measured tool bin (a + b)
  let cyx := measured tool bin (b + a)
  if cx.isSome && cy.isSome && cxy.isSome && cyx.isSome then [cx, cy, cxy, cyx]
  else [none, none, none]

/-- Value-level description of lines 273-278 (formula plus return shaping). -/
def finishValue (vb : Bool) (cx cy cxy cyx : Nat) : Except PyErr NCDRet :=
  match ncd_formula cx cy cxy cyx with
  | .error e => .error e
  | .ok d => .ok (if vb then .tuple5 cx cy cxy cyx d else .dist d)

/-- Value-level description of the single-compressor branch of `compute_ncd`. -/
def singleValue (tool : ToolModel) (bin : String) (sx sy : Nat) (vb : Bool) :
    Except PyErr NCDRet :=
  match toSizes (quadList tool bin sx sy) with
  | .error e => .error e
  | .ok (cx, cy, cxy, cyx) => finishValue vb cx cy cxy cyx

/-- Value-level description of the best-of-all loop (lines 265-272). -/
def loopValue (tool : ToolModel) (a b : Nat) :
    List (String × String) → Nat → Nat → Nat → Nat → Except PyErr (Nat × Nat × Nat × Nat)
  | [], cx, cy, cxy, cyx => .ok (cx, cy, cxy, cyx)
  | (_, bin) :: rest, cx, cy, cxy, cyx =>
      match toSizes (quadList tool bin a b) with
      | .error e => .error e
      | .ok (ncx, ncy, ncxy, ncyx) =>
          loopValue tool a b rest (min cx ncx) (min cy ncy) (min cxy ncxy) (min cyx ncyx)

/-- Value-level description of the best-of-all branch of `compute_ncd`. -/
def bestValue (ce : String → Bool) (tool : ToolModel) (sx sy : Nat) (vb : Bool) :
    Except PyErr NCDRet :=
  match loopValue tool sx sy (available_compressors ce)
      (10 * sx) (10 * sy) (10 * sx + 10 * sy) (10 * sx + 10 * sy) with
  | .error e => .error e
  | .ok (cx, cy, cxy, cyx) => finishValue vb cx cy cxy cyx

/-! Concrete host and tool instantiations used to exercise the model on
closed inputs. -/

/-- Host where only `gzip` resolves. -/
def gzipHost : String → Bool := fun s => s == "gzip"

/-- Host with no compressor binaries at all. -/
def emptyHost : String → Bool := fun _ => false

/-- Host where `bzip2` and `gzip` resolve. -/
def bzipGzipHost : String → Bool := fun s => s == "bzip2" || s == "gzip"

/-- A well-behaved compressor: always exits 0, always leaves an output of
`n + 20` bytes, consumes its working copy in place (as gzip does). -/
def steadyTool : ToolModel := fun _ n => ⟨true, true, n + 20, true⟩

/-- A compressor that always exits non-zero and touches nothing. -/
def brokenTool : ToolModel := fun _ _ => ⟨false, false, 0, false⟩

/-- A compressor that exits 0 but never produces the expected output file. -/
def ghostTool : ToolModel := fun _ _ => ⟨true, false, 0, false⟩

/-- Tool where `bzip2` always fails and every other binary behaves like `steadyTool`. -/
def bzipBrokenTool : ToolModel :=
  fun bin n => if bin == "bzip2" then ⟨false, false, 0, false⟩ else ⟨true, true, n + 20, true⟩

/-- run-equation lemmas -/
lemma pure_run (a : α) (s : FS) : (pure a : M α) s = (.ok a, s) := rfl

lemma bind_ok {x : M α} {f : α → M β} {s s' : FS} {a : α} (h : x s = (.ok a, s')) :
    (x >>= f) s = f a s' := by
  show M.bind x f s = f a s'
  simp [M.bind, h]

lemma bind_err {x : M α} {f : α → M β} {s s' : FS} {e : PyErr} (h : x s = (.error e, s')) :
    (x >>= f) s = (.error e, s') := by
  show M.bind x f s = (.error e, s')
  simp [M.bind, h]

lemma dispatch_eq {fam sfx : String} (tool : ToolModel) (p : FPath) (bin : String)
    (h : familySuffix fam = some sfx) :
    dispatch tool fam p bin = compress_any tool bin p (.withSuffix p sfx) := by
  unfold familySuffix at h
  unfold dispatch
  split at h <;>
    simp_all [compress_lzma, compress_bzip2, compress_lz77, compress_lzw, compress_ppmz,
      compress_ppmd, compress_paq]

lemma compress_run {tool : ToolModel} {fam sfx : String}
    (hfam : familySuffix fam = some sfx) (bin : String) {fs : FS} {infile : FPath} {n : Nat}
    (hW1 : (tool bin n).exitZero = false → (tool bin n).removesInput = false)
    (hW2 : (tool bin n).exitZero = true → (tool bin n).producesOutput = true)
    (hin : fs.files infile = some n) (hfr : fs.fresh) :
    ∃ fs', compress tool infile fam bin fs = (.ok (measured tool bin n), fs') ∧
      fs'.counter = fs.counter + 1 ∧ ∀ q, fs'.files q = fs.files q := by
  have hnt : infile ≠ FPath.tmp fs.counter := by
    intro h
    have := (hfr fs.counter "" le_rfl).1
    rw [h, this] at hin
    exact Option.noConfusion hin
  have hns : infile ≠ FPath.withSuffix (FPath.tmp fs.counter) sfx := by
    intro h
    have := (hfr fs.counter sfx le_rfl).2
    rw [h, this] at hin
    exact Option.noConfusion hin
  set c := fs.counter with hc
  set tp : FPath := FPath.tmp c with htp
  set rp : FPath := tp.withSuffix sfx with hrp
  set s1 : FS := ⟨fun q => if q = tp then some 0 else fs.files q, c + 1⟩ with hs1
  set s2 : FS := s1.set tp n with hs2
  set r := tool bin n with hr
  have hmk : mkstemp fs = (.ok tp, s1) := rfl
  have hcp : copyFile infile tp s1 = (.ok (), s2) := by
    simp [copyFile, hs1, hnt, hin]
  unfold compress
  rw [bind_ok hmk]
  rw [bind_ok hcp]
  rw [dispatch_eq tool _ bin hfam]
  have htprp : tp ≠ rp := by simp [hrp]
  set s3 : FS := if r.removesInput then s2.del tp else s2 with hs3
  set s4 : FS := if r.producesOutput then s3.set rp r.outputSize else s3 with hs4
  have hrun : runTool tool bin tp rp s2 = (.ok r.exitZero, s4) := by
    have h2 : s2.files tp = some n := by simp [hs2, FS.set]
    simp only [runTool, h2, Option.getD_some]
  cases hez : r.exitZero
  · -- compressor failed (CalledProcessError): the None branch of `_compress`
    have hri : r.removesInput = false := hW1 hez
    have hca : compress_any tool bin tp rp s2 = (.ok none, s4.del rp) := by
      unfold compress_any
      rw [bind_ok hrun, hez]
      rfl
    rw [bind_ok hca]
    have hs3e : s3 = s2 := by rw [hs3, hri]; rfl
    have htp4 : (s4.del rp).files tp = some n := by
      cases hpo : r.producesOutput <;>
        simp [FS.del, hs4, hpo, hs3e, hs2, FS.set, htprp]
    refine ⟨((s4.del rp).del tp), ?_, ?_, ?_⟩
    · change (removeStrict tp >>= fun _ => pure none) (s4.del rp) = _
      rw [bind_ok (show removeStrict tp (s4.del rp) = (.ok (), (s4.del rp).del tp) by
        simp [removeStrict, htp4])]
      rw [show measured tool bin n = none by rw [measured, ← hr, hez]; rfl]
      rfl
    · cases hpo : r.producesOutput <;> simp [FS.del, hs4, hpo, hs3e, hs2, FS.set, hs1]
    · intro q
      by_cases hq1 : q = tp
      · subst hq1
        simp only [FS.del, if_pos rfl]
        exact ((hfr c "" le_rfl).1).symm
      · by_cases hq2 : q = rp
        · subst hq2
          simp only [FS.del, if_neg hq1, if_pos rfl]
          exact ((hfr c sfx le_rfl).2).symm
        · cases hpo : r.producesOutput <;>
            simp [FS.del, FS.set, hs4, hpo, hs3e, hs2, hs1, hq1, hq2]
  · -- compressor succeeded
    have hpo : r.producesOutput = true := hW2 hez
    have hca : compress_any tool bin tp rp s2 = (.ok (some rp), s4) := by
      unfold compress_any
      rw [bind_ok hrun, hez]
      rfl
    rw [bind_ok hca]
    have hs4e : s4 = s3.set rp r.outputSize := by rw [hs4, hpo]; rfl
    have hrp4 : s4.files rp = some r.outputSize := by simp [hs4e, FS.set]
    refine ⟨((s4.del rp).del tp), ?_, ?_, ?_⟩
    · change (statSize rp >>= fun size => removeStrict rp >>= fun _ =>
        tryRemove tp >>= fun _ => pure (some size)) s4 = _
      rw [bind_ok (show statSize rp s4 = (.ok r.outputSize, s4) by simp [statSize, hrp4])]
      rw [bind_ok (show removeStrict rp s4 = (.ok (), s4.del rp) by simp [removeStrict, hrp4])]
      rw [bind_ok (show tryRemove tp (s4.del rp) = (.ok (), (s4.del rp).del tp) from rfl)]
      rw [show measured tool bin n = some r.outputSize by rw [measured, ← hr, hez]; rfl]
      rfl
    · cases hri : r.removesInput <;> simp [FS.del, hs4e, FS.set, hs3, hri, hs2, hs1]
    · intro q
      by_cases hq1 : q = tp
      · subst hq1
        simp only [FS.del, if_pos rfl]
        exact ((hfr c "" le_rfl).1).symm
      · by_cases hq2 : q = rp
        · subst hq2
          simp only [FS.del, if_neg hq1, if_pos rfl]
          exact ((hfr c sfx le_rfl).2).symm
        · cases hri : r.removesInput <;>
            simp [FS.del, FS.set, hs4e, hs3, hri, hs2, hs1, hq1, hq2]


lemma fresh_mono {fs fs' : FS} (hk : fs.counter ≤ fs'.counter)
    (hp : ∀ q, fs'.files q = fs.files q) (h : fs.fresh) : fs'.fresh := by
  intro k s hks
  have := h k s (le_trans hk hks)
  rw [hp, hp]
  exact this

lemma concat_run {fs : FS} (f1 f2 : FPath) {a b : Nat}
    (h1 : fs.files f1 = some a) (h2 : fs.files f2 = some b) (hfr : fs.fresh) :
    ∃ fs', concat f1 f2 fs = (.ok (FPath.tmp fs.counter), fs') ∧
      fs'.counter = fs.counter + 1 ∧
      fs'.files (FPath.tmp fs.counter) = some (a + b) ∧
      ∀ q, q ≠ FPath.tmp fs.counter → fs'.files q = fs.files q := by
  have hn1 : f1 ≠ FPath.tmp fs.counter := by
    intro h
    rw [h, (hfr fs.counter "" le_rfl).1] at h1
    exact Option.noConfusion h1
  have hn2 : f2 ≠ FPath.tmp fs.counter := by
    intro h
    rw [h, (hfr fs.counter "" le_rfl).1] at h2
    exact Option.noConfusion h2
  set c := fs.counter with hc
  set tp : FPath := FPath.tmp c with htp
  set s1 : FS := ⟨fun q => if q = tp then some 0 else fs.files q, c + 1⟩ with hs1
  unfold concat
  rw [bind_ok (show mkstemp fs = (.ok tp, s1) from rfl)]
  rw [bind_ok (show catInto f1 f2 tp s1 = (.ok (), s1.set tp ((s1.files f1).getD 0 + (s1.files f2).getD 0)) from rfl)]
  refine ⟨_, rfl, rfl, ?_, ?_⟩
  · simp [FS.set, hs1, hn1, hn2, h1, h2]
  · intro q hq
    simp [FS.set, hs1, hq]

lemma compressed_values_run {tool : ToolModel} (hW : WellBehaved tool) {fam sfx : String}
    (hfam : familySuffix fam = some sfx) (bin : String) {fs : FS} {x y : FPath} {a b : Nat}
    (hx : fs.files x = some a) (hy : fs.files y = some b) (hfr : fs.fresh) :
    ∃ fs', compressed_values tool x y fam bin fs = (.ok (quadList tool bin a b), fs') ∧
      fs'.counter = fs.counter + 6 ∧ ∀ q, fs'.files q = fs.files q := by
  set c := fs.counter with hc
  obtain ⟨fs1, e1, hc1, hp1⟩ := compress_run hfam bin (hW bin a).1 (hW bin a).2 hx hfr
  have hfr1 : fs1.fresh := fresh_mono (by omega) hp1 hfr
  obtain ⟨fs2, e2, hc2, hp2⟩ := compress_run hfam bin (hW bin b).1 (hW bin b).2 (by rw [hp1]; exact hy) hfr1
  have hfr2 : fs2.fresh := fresh_mono (by omega) hp2 hfr1
  obtain ⟨fs3, e3, hc3, hxy3, hp3⟩ := concat_run x y
    (by rw [hp2, hp1]; exact hx) (by rw [hp2, hp1]; exact hy) hfr2
  have hc2' : fs2.counter = c + 2 := by omega
  rw [hc2'] at e3 hxy3 hp3
  have hfr3 : fs3.fresh := by
    intro k s hks
    rw [hc3, hc2'] at hks
    constructor
    · rw [hp3 _ (by intro h; cases h; omega)]
      rw [hp2, hp1]
      exact (hfr k s (by omega)).1
    · rw [hp3 _ (by simp)]
      rw [hp2, hp1]
      exact (hfr k s (by omega)).2
  obtain ⟨fs4, e4, hc4, hp4⟩ := compress_run hfam bin (hW bin (a + b)).1 (hW bin (a + b)).2 hxy3 hfr3
  have hfr4 : fs4.fresh := fresh_mono (by omega) hp4 hfr3
  obtain ⟨fs5, e5, hc5, hyx5, hp5⟩ := concat_run y x
    (by rw [hp4, hp3 _ ?_, hp2, hp1]; exact hy
        intro h
        rw [h, (hfr (c+2) "" (by omega)).1] at hy
        exact Option.noConfusion hy)
    (by rw [hp4, hp3 _ ?_, hp2, hp1]; exact hx
        intro h
        rw [h, (hfr (c+2) "" (by omega)).1] at hx
        exact Option.noConfusion hx) hfr4
  have hc4' : fs4.counter = c + 4 := by omega
  rw [hc4'] at e5 hyx5 hp5
  have hfr5 : fs5.fresh := by
    intro k s hks
    rw [hc5, hc4'] at hks
    constructor
    · rw [hp5 _ (by intro h; cases h; omega)]
      rw [hp4, hp3 _ (by intro h; cases h; omega), hp2, hp1]
      exact (hfr k s (by omega)).1
    · rw [hp5 _ (by simp)]
      rw [hp4, hp3 _ (by simp), hp2, hp1]
      exact (hfr k s (by omega)).2
  obtain ⟨fs6, e6, hc6, hp6⟩ := compress_run hfam bin (hW bin (b + a)).1 (hW bin (b + a)).2 hyx5 hfr5
  have hne24 : FPath.tmp (c + 2) ≠ FPath.tmp (c + 4) := by simp
  have hxy6 : fs6.files (FPath.tmp (c + 2)) = some (a + b) := by
    rw [hp6, hp5 _ hne24, hp4]
    exact hxy3
  have hyx7 : (fs6.del (FPath.tmp (c + 2))).files (FPath.tmp (c + 4)) = some (b + a) := by
    simp only [FS.del, if_neg (Ne.symm hne24)]
    rw [hp6]
    exact hyx5
  unfold compressed_values
  rw [bind_ok e1, bind_ok e2, bind_ok e3, bind_ok e4, bind_ok e5, bind_ok e6]
  rw [bind_ok (show removeStrict (FPath.tmp (c + 2)) fs6 =
    (.ok (), fs6.del (FPath.tmp (c + 2))) by simp [removeStrict, hxy6])]
  rw [bind_ok (show removeStrict (FPath.tmp (c + 4)) (fs6.del (FPath.tmp (c + 2))) =
    (.ok (), (fs6.del (FPath.tmp (c + 2))).del (FPath.tmp (c + 4))) by
      simp [removeStrict, hyx7])]
  refine ⟨(fs6.del (FPath.tmp (c + 2))).del (FPath.tmp (c + 4)), ?_, ?_, ?_⟩
  · simp only [quadList]
    by_cases hP : ((measured tool bin a).isSome && (measured tool bin b).isSome &&
        (measured tool bin (a + b)).isSome && (measured tool bin (b + a)).isSome) = true
    · rw [if_pos hP, if_pos hP]
      rfl
    · rw [if_neg hP, if_neg hP]
      rfl
  · simp only [FS.del]
    omega
  · intro q
    by_cases hq2 : q = FPath.tmp (c + 2)
    · subst hq2
      simp only [FS.del, if_neg hne24, if_pos rfl]
      exact ((hfr (c + 2) "" (by omega)).1).symm
    · by_cases hq4 : q = FPath.tmp (c + 4)
      · subst hq4
        simp only [FS.del, if_pos rfl]
        exact ((hfr (c + 4) "" (by omega)).1).symm
      · simp only [FS.del, if_neg hq4, if_neg hq2]
        rw [hp6, hp5 _ hq4, hp4, hp3 _ hq2, hp2, hp1]


/-- Initial states have no stale working-directory files. -/
lemma init_fresh (sx sy : Nat) : (FS.init sx sy).fresh := by
  intro k s hk
  exact ⟨rfl, rfl⟩

lemma finish_run (vb : Bool) (cx cy cxy cyx : Nat) (fs : FS) :
    finish vb cx cy cxy cyx fs = (finishValue vb cx cy cxy cyx, fs) := by
  unfold finish finishValue
  rcases hf : ncd_formula cx cy cxy cyx with e | d
  · rw [bind_err (show liftE (Except.error e : Except PyErr ℚ) fs = (.error e, fs) from rfl)]
  · rw [bind_ok (show liftE (Except.ok d : Except PyErr ℚ) fs = (.ok d, fs) from rfl)]
    cases vb <;> rfl

lemma compute_ncd_single_run {tool : ToolModel} (hW : WellBehaved tool)
    {ce : String → Bool} {fam sfx bin : String}
    (hsfx : familySuffix fam = some sfx)
    (hlook : List.lookup fam (available_compressors ce) = some bin)
    (vb : Bool) (sx sy : Nat) :
    ∃ fs', compute_ncd ce tool (.input 0) (.input 1) (some fam) vb (FS.init sx sy) =
        (singleValue tool bin sx sy vb, fs') ∧
      ∀ q, fs'.files q = (FS.init sx sy).files q := by
  obtain ⟨fs1, e1, hc1, hp1⟩ := compressed_values_run hW hsfx bin
    (x := FPath.input 0) (y := FPath.input 1) (a := sx) (b := sy)
    rfl rfl (init_fresh sx sy)
  simp only [compute_ncd, hlook]
  rw [bind_ok e1]
  unfold singleValue
  rcases hts : toSizes (quadList tool bin sx sy) with e | ⟨cx, cy, cxy, cyx⟩
  · rw [bind_err (show liftE (Except.error e : Except PyErr (Nat × Nat × Nat × Nat)) fs1 =
      (.error e, fs1) from rfl)]
    exact ⟨fs1, rfl, hp1⟩
  · rw [bind_ok (show liftE (Except.ok (cx, cy, cxy, cyx) : Except PyErr (Nat × Nat × Nat × Nat)) fs1 =
      (.ok (cx, cy, cxy, cyx), fs1) from rfl)]
    exact ⟨fs1, finish_run vb cx cy cxy cyx fs1, hp1⟩

lemma best_loop_run {tool : ToolModel} (hW : WellBehaved tool)
    {l : List (String × String)}
    (hknown : ∀ p ∈ l, (familySuffix p.1).isSome = true)
    {s : FS} {x y : FPath} {a b : Nat}
    (hx : s.files x = some a) (hy : s.files y = some b) (hfr : s.fresh)
    (cx cy cxy cyx : Nat) :
    ∃ s', best_loop tool x y l cx cy cxy cyx s =
        (loopValue tool a b l cx cy cxy cyx, s') ∧
      s.counter ≤ s'.counter ∧ ∀ q, s'.files q = s.files q := by
  induction l generalizing s cx cy cxy cyx with
  | nil => exact ⟨s, rfl, le_rfl, fun q => rfl⟩
  | cons p rest ih =>
      obtain ⟨c, bin⟩ := p
      obtain ⟨sfx, hsfx⟩ := Option.isSome_iff_exists.mp (hknown (c, bin) (List.mem_cons_self _ _))
      obtain ⟨fs1, e1, hc1, hp1⟩ := compressed_values_run hW hsfx bin hx hy hfr
      unfold best_loop loopValue
      rw [bind_ok e1]
      rcases hts : toSizes (quadList tool bin a b) with e | ⟨ncx, ncy, ncxy, ncyx⟩
      · rw [bind_err (show liftE (Except.error e : Except PyErr (Nat × Nat × Nat × Nat)) fs1 =
          (.error e, fs1) from rfl)]
        exact ⟨fs1, rfl, by omega, hp1⟩
      · rw [bind_ok (show liftE (Except.ok (ncx, ncy, ncxy, ncyx) :
          Except PyErr (Nat × Nat × Nat × Nat)) fs1 = (.ok (ncx, ncy, ncxy, ncyx), fs1) from rfl)]
        obtain ⟨fs2, e2, hc2, hp2⟩ := ih (fun q hq => hknown q (List.mem_cons_of_mem _ hq))
          (s := fs1) (by rw [hp1]; exact hx) (by rw [hp1]; exact hy)
          (fresh_mono (by omega) hp1 hfr) (min cx ncx) (min cy ncy) (min cxy ncxy) (min cyx ncyx)
        exact ⟨fs2, e2, by omega, fun q => by rw [hp2, hp1]⟩

/-- Every family discovered by `available_compressors` is one of the seven
known families (so its `_compress_<fam>` function exists). -/
lemma avail_aux_keys {ce : String → Bool} {l : List (String × Candidates)} {p : String × String}
    (h : p ∈ avail_aux ce l) : p.1 ∈ l.map Prod.fst := by
  induction l with
  | nil => cases h
  | cons q rest ih =>
      obtain ⟨name, cands⟩ := q
      simp only [List.map_cons]
      cases cands with
      | one b =>
          unfold avail_aux at h
          by_cases hce : ce b = true
          · rw [if_pos hce] at h
            rcases List.mem_cons.mp h with h | h
            · rw [h]
              exact List.mem_cons_self _ _
            · exact List.mem_cons_of_mem _ (ih h)
          · rw [if_neg hce] at h
            exact List.mem_cons_of_mem _ (ih h)
      | many bl =>
          unfold avail_aux at h
          rcases hfa : firstAvailable ce bl with _ | t
          · rw [hfa] at h
            exact List.mem_cons_of_mem _ (ih h)
          · rw [hfa] at h
            rcases List.mem_cons.mp h with h | h
            · rw [h]
              exact List.mem_cons_self _ _
            · exact List.mem_cons_of_mem _ (ih h)

lemma avail_known {ce : String → Bool} {p : String × String}
    (h : p ∈ available_compressors ce) : (familySuffix p.1).isSome = true := by
  have := avail_aux_keys h
  simp only [KNOWN_COMPRESSORS, List.map, List.mem_cons, List.not_mem_nil, or_false] at this
  rcases this with h | h | h | h | h | h | h <;> rw [h] <;> rfl

lemma compute_ncd_best_run {tool : ToolModel} (hW : WellBehaved tool)
    (ce : String → Bool) (vb : Bool) (sx sy : Nat) :
    ∃ fs', compute_ncd ce tool (.input 0) (.input 1) none vb (FS.init sx sy) =
        (bestValue ce tool sx sy vb, fs') ∧
      ∀ q, fs'.files q = (FS.init sx sy).files q := by
  obtain ⟨fs1, e1, hc1, hp1⟩ := best_loop_run hW
    (l := available_compressors ce) (fun p hp => avail_known hp)
    (x := FPath.input 0) (y := FPath.input 1) (a := sx) (b := sy)
    (s := FS.init sx sy) rfl rfl (init_fresh sx sy)
    (10 * sx) (10 * sy) (10 * sx + 10 * sy) (10 * sx + 10 * sy)
  simp only [compute_ncd]
  rw [bind_ok (show statSize (FPath.input 0) (FS.init sx sy) = (.ok sx, FS.init sx sy) from rfl)]
  rw [bind_ok (show statSize (FPath.input 1) (FS.init sx sy) = (.ok sy, FS.init sx sy) from rfl)]
  unfold bestValue
  rcases hlv : loopValue tool sx sy (available_compressors ce)
      (10 * sx) (10 * sy) (10 * sx + 10 * sy) (10 * sx + 10 * sy) with e | ⟨cx, cy, cxy, cyx⟩
  · rw [hlv] at e1
    rw [bind_err e1]
    exact ⟨fs1, rfl, hp1⟩
  · rw [hlv] at e1
    rw [bind_ok e1]
    exact ⟨fs1, finish_run vb cx cy cxy cyx fs1, hp1⟩

/-! Inversion helpers. -/

lemma mem_of_lookup {l : List (String × String)} {k v : String}
    (h : List.lookup k l = some v) : (k, v) ∈ l := by
  induction l with
  | nil => simp [List.lookup] at h
  | cons p rest ih =>
      obtain ⟨k0, v0⟩ := p
      rw [List.lookup] at h
      by_cases hb : (k == k0) = true
      · rw [hb] at h
        have hv : v0 = v := Option.some.inj h
        have hk : k = k0 := beq_iff_eq.mp hb
        rw [← hv, ← hk]
        exact List.mem_cons_self _ _
      · rw [Bool.not_eq_true] at hb
        rw [hb] at h
        exact List.mem_cons_of_mem _ (ih h)

lemma toSizes_ok_inv {r : List (Option Nat)} {cx cy cxy cyx : Nat}
    (h : toSizes r = .ok (cx, cy, cxy, cyx)) :
    r = [some cx, some cy, some cxy, some cyx] := by
  unfold toSizes at h
  split at h
  · rename_i a b c d heq
    injection h with h
    injection h with h1 h
    injection h with h2 h
    injection h with h3 h4
    subst h1
    subst h2
    subst h3
    subst h4
    rfl
  · exact absurd h (by simp)
  · exact absurd h (by simp)

lemma ncd_formula_ok_inv {cx cy cxy cyx : Nat} {d : ℚ}
    (h : ncd_formula cx cy cxy cyx = .ok d) :
    max cx cy ≠ 0 ∧
      d = (((min cxy cyx : Nat) : ℚ) - ((min cx cy : Nat) : ℚ)) / ((max cx cy : Nat) : ℚ) := by
  unfold ncd_formula at h
  split at h
  · exact absurd h (by simp)
  · exact ⟨by assumption, (Except.ok.inj h).symm⟩

/-- With an empty compressor set, the best-of-all branch runs the loop on an
empty list: the pessimistic bounds reach the formula untouched. -/
lemma compute_ncd_no_compressors {ce : String → Bool}
    (h : available_compressors ce = []) (tool : ToolModel) (vb : Bool) (sx sy : Nat) :
    compute_ncd ce tool (.input 0) (.input 1) none vb (FS.init sx sy)
      = (finishValue vb (10 * sx) (10 * sy) (10 * sx + 10 * sy) (10 * sx + 10 * sy),
         FS.init sx sy) := by
  simp only [compute_ncd, h]
  rw [bind_ok (show statSize (FPath.input 0) (FS.init sx sy) = (.ok sx, FS.init sx sy) from rfl)]
  rw [bind_ok (show statSize (FPath.input 1) (FS.init sx sy) = (.ok sy, FS.init sx sy) from rfl)]
  rw [bind_ok (show best_loop tool (FPath.input 0) (FPath.input 1) []
    (10 * sx) (10 * sy) (10 * sx + 10 * sy) (10 * sx + 10 * sy) (FS.init sx sy)
      = (.ok (10 * sx, 10 * sy, 10 * sx + 10 * sy, 10 * sx + 10 * sy), FS.init sx sy) from rfl)]
  exact finish_run vb _ _ _ _ _

/-- On the pessimistic bounds alone, the formula yields exactly 1 whenever at
least one input is non-empty. -/
lemma finishValue_bounds (vb : Bool) (sx sy : Nat) (hne : ¬(sx = 0 ∧ sy = 0)) :
    finishValue vb (10 * sx) (10 * sy) (10 * sx + 10 * sy) (10 * sx + 10 * sy)
      = .ok (if vb then .tuple5 (10 * sx) (10 * sy) (10 * sx + 10 * sy) (10 * sx + 10 * sy) 1
             else .dist 1) := by
  have hmax : max (10 * sx) (10 * sy) ≠ 0 := by omega
  have hf : ncd_formula (10 * sx) (10 * sy) (10 * sx + 10 * sy) (10 * sx + 10 * sy) = .ok 1 := by
    unfold ncd_formula
    rw [if_neg hmax]
    have hsum : min (10 * sx) (10 * sy) + max (10 * sx) (10 * sy) = 10 * sx + 10 * sy :=
      min_add_max _ _
    have hcast : ((min (10 * sx) (10 * sy) : ℕ) : ℚ) + ((max (10 * sx) (10 * sy) : ℕ) : ℚ)
        = ((10 * sx + 10 * sy : ℕ) : ℚ) := by exact_mod_cast congrArg Nat.cast hsum
    have h1 : ((min (10 * sx + 10 * sy) (10 * sx + 10 * sy) : ℕ) : ℚ)
        - ((min (10 * sx) (10 * sy) : ℕ) : ℚ) = ((max (10 * sx) (10 * sy) : ℕ) : ℚ) := by
      rw [min_self]
      linarith
    rw [h1, div_self (by exact_mod_cast hmax)]
  unfold finishValue
  rw [hf]

/-- Every run of `compute_ncd` either raises, or returns a value assembled by
the distance formula applied once to a finalized quadruple. -/
lemma compute_ncd_run (ce : String → Bool) (tool : ToolModel) (x y : FPath)
    (comp : Option String) (vb : Bool) (fs : FS) :
    (∃ e fs', compute_ncd ce tool x y comp vb fs = (.error e, fs')) ∨
    (∃ cx cy cxy cyx d fs', ncd_formula cx cy cxy cyx = .ok d ∧
      compute_ncd ce tool x y comp vb fs =
        (.ok (if vb then NCDRet.tuple5 cx cy cxy cyx d else NCDRet.dist d), fs')) := by
  have hfin : ∀ (cx cy cxy cyx : Nat) (fs1 : FS),
      (∃ e fs', finish vb cx cy cxy cyx fs1 = (.error e, fs')) ∨
      (∃ d, ncd_formula cx cy cxy cyx = .ok d ∧
        finish vb cx cy cxy cyx fs1 =
          (.ok (if vb then NCDRet.tuple5 cx cy cxy cyx d else NCDRet.dist d), fs1)) := by
    intro cx cy cxy cyx fs1
    have h := finish_run vb cx cy cxy cyx fs1
    rcases hnf : ncd_formula cx cy cxy cyx with e | d
    · left
      refine ⟨e, fs1, ?_⟩
      rw [h]
      unfold finishValue
      rw [hnf]
    · right
      refine ⟨d, rfl, ?_⟩
      rw [h]
      unfold finishValue
      rw [hnf]
  cases comp with
  | some fam =>
      rcases hl : List.lookup fam (available_compressors ce) with _ | bin
      · simp only [compute_ncd, hl]
        exact Or.inl ⟨.keyError, fs, rfl⟩
      · simp only [compute_ncd, hl]
        rcases hcv : compressed_values tool x y fam bin fs with ⟨res, fs1⟩
        cases res with
        | error e =>
            rw [bind_err hcv]
            exact Or.inl ⟨e, fs1, rfl⟩
        | ok r =>
            rw [bind_ok hcv]
            rcases hts : toSizes r with e | ⟨cx, cy, cxy, cyx⟩
            · rw [bind_err (show liftE (Except.error e : Except PyErr (Nat × Nat × Nat × Nat)) fs1
                = (.error e, fs1) from rfl)]
              exact Or.inl ⟨e, fs1, rfl⟩
            · rw [bind_ok (show liftE (Except.ok (cx, cy, cxy, cyx) :
                Except PyErr (Nat × Nat × Nat × Nat)) fs1 = (.ok (cx, cy, cxy, cyx), fs1) from rfl)]
              rcases hfin cx cy cxy cyx fs1 with ⟨e, fs', hq⟩ | ⟨d, hd, hq⟩
              · exact Or.inl ⟨e, fs', hq⟩
              · exact Or.inr ⟨cx, cy, cxy, cyx, d, fs1, hd, hq⟩
  | none =>
      simp only [compute_ncd]
      rcases hsx : statSize x fs with ⟨rx, fsx⟩
      cases rx with
      | error e =>
          rw [bind_err hsx]
          exact Or.inl ⟨e, fsx, rfl⟩
      | ok sx =>
          rw [bind_ok hsx]
          rcases hsy : statSize y fsx with ⟨ry, fsy⟩
          cases ry with
          | error e =>
              rw [bind_err hsy]
              exact Or.inl ⟨e, fsy, rfl⟩
          | ok sy =>
              rw [bind_ok hsy]
              rcases hbl : best_loop tool x y (available_compressors ce)
                  (10 * sx) (10 * sy) (10 * sx + 10 * sy) (10 * sx + 10 * sy) fsy with ⟨rb, fsb⟩
              cases rb with
              | error e =>
                  rw [bind_err hbl]
                  exact Or.inl ⟨e, fsb, rfl⟩
              | ok q =>
                  obtain ⟨cx, cy, cxy, cyx⟩ := q
                  rw [bind_ok hbl]
                  rcases hfin cx cy cxy cyx fsb with ⟨e, fs', hq⟩ | ⟨d, hd, hq⟩
                  · exact Or.inl ⟨e, fs', hq⟩
                  · exact Or.inr ⟨cx, cy, cxy, cyx, d, fsb, hd, hq⟩

lemma measured_eq_some {tool : ToolModel} {bin : String} {n v : Nat}
    (h : measured tool bin n = some v) : v = (tool bin n).outputSize := by
  unfold measured at h
  split at h
  · exact (Option.some.inj h).symm
  · exact absurd h (by simp)

lemma quadList_ok_inv {tool : ToolModel} {bin : String} {a b cx cy cxy cyx : Nat}
    (h : toSizes (quadList tool bin a b) = .ok (cx, cy, cxy, cyx)) :
    cx = (tool bin a).outputSize ∧ cy = (tool bin b).outputSize ∧
      cxy = (tool bin (a + b)).outputSize ∧ cyx = (tool bin (b + a)).outputSize := by
  have hr := toSizes_ok_inv h
  simp only [quadList] at hr
  by_cases hP : ((measured tool bin a).isSome && (measured tool bin b).isSome &&
      (measured tool bin (a + b)).isSome && (measured tool bin (b + a)).isSome) = true
  · rw [if_pos hP] at hr
    injection hr with h1 hr
    injection hr with h2 hr
    injection hr with h3 hr
    injection hr with h4 hr
    exact ⟨measured_eq_some h1, measured_eq_some h2,
      measured_eq_some h3, measured_eq_some h4⟩
  · rw [if_neg hP] at hr
    exact absurd hr (by simp)

lemma avail_aux_lookup_none {ce : String → Bool} {l : List (String × Candidates)} {name : String}
    (h : ¬ name ∈ l.map Prod.fst) : List.lookup name (avail_aux ce l) = none := by
  induction l with
  | nil => rfl
  | cons p rest ih =>
      obtain ⟨n0, c0⟩ := p
      simp only [List.map_cons, List.mem_cons] at h
      push_neg at h
      obtain ⟨hne, hrest⟩ := h
      have hbeq : (name == n0) = false := beq_eq_false_iff_ne.mpr hne
      cases c0 with
      | one b =>
          unfold avail_aux
          by_cases hce : ce b = true
          · rw [if_pos hce, List.lookup, hbeq]
            exact ih hrest
          · rw [if_neg hce]
            exact ih hrest
      | many bl =>
          unfold avail_aux
          rcases hfa : firstAvailable ce bl with _ | t
          · exact ih hrest
          · rw [List.lookup, hbeq]
            exact ih hrest

lemma avail_aux_lookup {ce : String → Bool} {l : List (String × Candidates)} {name : String}
    {cands : Candidates} (hnd : (l.map Prod.fst).Nodup) (hmem : (name, cands) ∈ l) :
    List.lookup name (avail_aux ce l) = firstAvailable ce cands.toList := by
  induction l with
  | nil => cases hmem
  | cons p rest ih =>
      obtain ⟨n0, c0⟩ := p
      simp only [List.map_cons, List.nodup_cons] at hnd
      obtain ⟨hn0, hndr⟩ := hnd
      rcases List.mem_cons.mp hmem with heq | htail
      · injection heq with h1 h2
        subst h1
        subst h2
        cases cands with
        | one b =>
            unfold avail_aux
            by_cases hce : ce b = true
            · rw [if_pos hce, List.lookup, beq_self_eq_true]
              simp [firstAvailable, Candidates.toList, hce]
            · rw [if_neg hce, avail_aux_lookup_none hn0]
              simp [firstAvailable, Candidates.toList, hce]
        | many bl =>
            unfold avail_aux
            rcases hfa : firstAvailable ce bl with _ | t
            · rw [avail_aux_lookup_none hn0]
              exact hfa.symm
            · rw [List.lookup, beq_self_eq_true]
              exact hfa.symm
      · have hne : name ≠ n0 := by
          intro hcontr
          subst hcontr
          exact hn0 (List.mem_map.mpr ⟨(name, cands), htail, rfl⟩)
        have hbeq : (name == n0) = false := beq_eq_false_iff_ne.mpr hne
        cases c0 with
        | one b =>
            unfold avail_aux
            by_cases hce : ce b = true
            · rw [if_pos hce, List.lookup, hbeq]
              exact ih hndr htail
            · rw [if_neg hce]
              exact ih hndr htail
        | many bl =>
            unfold avail_aux
            rcases hfa : firstAvailable ce bl with _ | t
            · exact ih hndr htail
            · rw [List.lookup, hbeq]
              exact ih hndr htail


/-! Claim theorems -/

/-! Well-behavedness of the concrete tools. -/

lemma steadyTool_wb : WellBehaved steadyTool :=
  fun _ _ => ⟨fun h => Bool.noConfusion h, fun _ => rfl⟩

lemma bzipBrokenTool_wb : WellBehaved bzipBrokenTool := by
  intro bin n
  unfold bzipBrokenTool
  split
  · exact ⟨fun _ => rfl, fun h => Bool.noConfusion h⟩
  · exact ⟨fun h => Bool.noConfusion h, fun _ => rfl⟩


/-- C1: the spec says a failing family in best-of-all mode is recovered locally
(the loop proceeds and a distance is still returned).  The code instead aborts:
`_compressed_values` signals failure with the 3-tuple `(None, None, None)` of
line 226, and unpacking it into the four loop variables at line 266 raises
`ValueError`.  On a host with `bzip2` and `gzip` available, 1-byte inputs, and a
`bzip2` that always exits non-zero while `gzip` works, best-of-all `compute_ncd`
raises instead of returning the gzip-derived distance. -/
theorem best_of_all_failing_family_aborts :
    (compute_ncd bzipGzipHost bzipBrokenTool (.input 0) (.input 1) none false
      (FS.init 1 1)).1 = .error .valueError := by
  obtain ⟨fs', e, -⟩ := compute_ncd_best_run bzipBrokenTool_wb bzipGzipHost false 1 1
  rw [e]
  show bestValue bzipGzipHost bzipBrokenTool 1 1 false = .error .valueError
  decide

/-- C2 counterexample: with an empty available-compressor set and two 1-byte
inputs, best-of-all `compute_ncd` does not fail with a configuration error; it
returns the distance 1 computed from the pessimistic bounds alone. -/
theorem empty_set_returns_distance :
    (compute_ncd emptyHost steadyTool (.input 0) (.input 1) none false (FS.init 1 1)).1
      = .ok (.dist 1) := by
  rw [compute_ncd_no_compressors (show available_compressors emptyHost = [] from rfl)
    steadyTool false 1 1]
  rw [finishValue_bounds false 1 1 (by simp)]
  rfl

/-- C2 amended: in best-of-all mode with an empty available-compressor set,
`compute_ncd` does not fail fast; for any inputs that are not both empty it
proceeds on the pessimistic bounds and returns a numeric result (it raises only
the `ZeroDivisionError` of the formula when both inputs are empty, which is not
a configuration error and not prior to measurement set-up). -/
theorem empty_set_no_fail_fast (ce : String → Bool) (tool : ToolModel) (vb : Bool)
    (sx sy : Nat) (hav : available_compressors ce = []) (hne : ¬(sx = 0 ∧ sy = 0)) :
    ∃ v, (compute_ncd ce tool (.input 0) (.input 1) none vb (FS.init sx sy)).1 = .ok v := by
  rw [compute_ncd_no_compressors hav tool vb sx sy]
  rw [finishValue_bounds vb sx sy hne]
  exact ⟨_, rfl⟩

/-- Witness for C2's amended theorem at a concrete input. -/
theorem empty_set_no_fail_fast_witness :
    ∃ v, (compute_ncd emptyHost steadyTool (.input 0) (.input 1) none false
      (FS.init 2 3)).1 = .ok v :=
  empty_set_no_fail_fast emptyHost steadyTool false 2 3 rfl (by simp)

/-- C3: in single-compressor mode, when the measurement step fails to produce a
full quadruple — `_compressed_values` returns its `(None, None, None)` failure
sentinel because one of the four compression attempts was absent — the whole
`compute_ncd` call fails (with the `ValueError` raised by unpacking the
sentinel) and no NCD value is returned to the caller. -/
theorem single_mode_failure_aborts (ce : String → Bool) (tool : ToolModel)
    (fam bin : String) (vb : Bool) (sx sy : Nat)
    (hlook : List.lookup fam (available_compressors ce) = some bin)
    (hfail : (compressed_values tool (.input 0) (.input 1) fam bin (FS.init sx sy)).1
      = .ok [none, none, none]) :
    (compute_ncd ce tool (.input 0) (.input 1) (some fam) vb (FS.init sx sy)).1
      = .error .valueError := by
  simp only [compute_ncd, hlook]
  rcases hcv : compressed_values tool (.input 0) (.input 1) fam bin (FS.init sx sy)
    with ⟨res, fs1⟩
  rw [hcv] at hfail
  have hres : res = .ok [none, none, none] := hfail
  subst hres
  rw [bind_ok hcv]
  rw [bind_err (show liftE (toSizes [none, none, none]) fs1
    = (.error .valueError, fs1) from rfl)]

/-- Witness for C3: a compressor that always exits non-zero makes the
single-compressor request fail with no value returned. -/
theorem single_mode_failure_aborts_witness :
    (compute_ncd gzipHost brokenTool (.input 0) (.input 1) (some "LZ77") false
      (FS.init 1 1)).1 = .error .valueError :=
  single_mode_failure_aborts gzipHost brokenTool "LZ77" "gzip" false 1 1 (by decide) (by decide)

/-- C4 counterexample: a tool that exits 0 without producing the expected
output file makes `_compress` raise (`os.stat` at line 190 raises
`FileNotFoundError`) instead of returning the absent value. -/
theorem compress_raises_on_missing_output :
    (compress ghostTool (.input 0) "LZ77" "gzip" (FS.init 1 1)).1
      = .error .fileNotFoundError := by
  decide

/-- C4 amended: `_compress` returns the absent value without raising for
invocation failures by non-zero exit, provided the tool left the working copy
in place (the expected-output cleanup of `_compress_any` ignores not-found).
But a tool that exits 0 without producing the expected output makes the
`os.stat` call raise, and the failure-path `os.remove(tmp_path)` at line 204 is
unguarded, so cleanup does not ignore not-found on that path. -/
theorem compress_none_on_failed_invocation (tool : ToolModel) (fam sfx bin : String)
    (fs : FS) (p : FPath) (n : Nat)
    (hsfx : familySuffix fam = some sfx) (hp : fs.files p = some n) (hfr : fs.fresh)
    (hez : (tool bin n).exitZero = false) (hri : (tool bin n).removesInput = false) :
    (compress tool p fam bin fs).1 = .ok none := by
  obtain ⟨fs', e, -, -⟩ := compress_run hsfx bin (fun _ => hri)
    (fun h => by rw [h] at hez; exact Bool.noConfusion hez) hp hfr
  rw [e]
  simp [measured, hez]

/-- Witness for C4's amended theorem: the always-failing tool yields the soft
`None` result. -/
theorem compress_none_on_failed_invocation_witness :
    (compress brokenTool (.input 0) "LZ77" "gzip" (FS.init 1 1)).1 = .ok none :=
  compress_none_on_failed_invocation brokenTool "LZ77" ".gz" "gzip" (FS.init 1 1)
    (.input 0) 1 rfl rfl (init_fresh 1 1) rfl rfl

/-- C5: when both individual compressed sizes are zero the denominator
`max(cx, cy)` is zero and the distance line raises `ZeroDivisionError` — no
NaN, infinity, or other numeric value is produced; in particular two empty
inputs with no available compressor reach exactly this error. -/
theorem zero_denominator_reports_error (cx cy cxy cyx : Nat)
    (hx : cx = 0) (hy : cy = 0) :
    ncd_formula cx cy cxy cyx = .error .zeroDivisionError ∧
    (compute_ncd emptyHost steadyTool (.input 0) (.input 1) none false (FS.init 0 0)).1
      = .error .zeroDivisionError := by
  constructor
  · subst hx
    subst hy
    simp [ncd_formula]
  · decide

/-- Witness for C5 at concrete sizes. -/
theorem zero_denominator_reports_error_witness :
    ncd_formula 0 0 5 7 = .error .zeroDivisionError ∧
    (compute_ncd emptyHost steadyTool (.input 0) (.input 1) none false (FS.init 0 0)).1
      = .error .zeroDivisionError :=
  zero_denominator_reports_error 0 0 5 7 rfl rfl

/-- C6 counterexample: with only the LZ77 family available and a gzip-like tool
whose output is `n + 20` bytes, inputs of sizes 0 and 1 make best-of-all mode
and single-compressor mode return different results: the tool's outputs exceed
the pessimistic 10x-raw-size bounds on tiny files, so the bounds win the
minimum and the two modes disagree (verbose quadruples (0,10,10,10) versus
(20,21,21,21)). -/
theorem best_of_all_single_family_differs :
    (compute_ncd gzipHost steadyTool (.input 0) (.input 1) none true (FS.init 0 1)).1 ≠
      (compute_ncd gzipHost steadyTool (.input 0) (.input 1) (some "LZ77") true
        (FS.init 0 1)).1 := by
  obtain ⟨fsb, eb, -⟩ := compute_ncd_best_run steadyTool_wb gzipHost true 0 1
  obtain ⟨fss, es, -⟩ := compute_ncd_single_run steadyTool_wb
    (show familySuffix "LZ77" = some ".gz" from rfl)
    (show List.lookup "LZ77" (available_compressors gzipHost) = some "gzip" by decide) true 0 1
  rw [eb, es]
  show bestValue gzipHost steadyTool 0 1 true ≠ singleValue steadyTool "gzip" 0 1 true
  decide

/-- C6 amended: best-of-all mode with exactly one available family agrees with
explicitly requesting that family provided each of the family's four
measurements is at most the corresponding pessimistic bound (10x each raw size,
and their sum for the concatenations) — the bounds are not improved on by every
real compressor result, only by those within them. -/
theorem best_of_all_single_family_agrees (ce : String → Bool) (tool : ToolModel)
    (fam bin : String) (vb : Bool) (sx sy : Nat) (hW : WellBehaved tool)
    (hav : available_compressors ce = [(fam, bin)])
    (hbx : (tool bin sx).outputSize ≤ 10 * sx)
    (hby : (tool bin sy).outputSize ≤ 10 * sy)
    (hbxy : (tool bin (sx + sy)).outputSize ≤ 10 * sx + 10 * sy)
    (hbyx : (tool bin (sy + sx)).outputSize ≤ 10 * sx + 10 * sy) :
    (compute_ncd ce tool (.input 0) (.input 1) none vb (FS.init sx sy)).1 =
      (compute_ncd ce tool (.input 0) (.input 1) (some fam) vb (FS.init sx sy)).1 := by
  have hmem : (fam, bin) ∈ available_compressors ce := by
    rw [hav]
    exact List.mem_cons_self _ _
  obtain ⟨sfx, hsfx⟩ := Option.isSome_iff_exists.mp (avail_known hmem)
  have hlook : List.lookup fam (available_compressors ce) = some bin := by
    rw [hav, List.lookup, beq_self_eq_true]
  obtain ⟨fsb, eb, hpb⟩ := compute_ncd_best_run hW ce vb sx sy
  obtain ⟨fss, es, hps⟩ := compute_ncd_single_run hW hsfx hlook vb sx sy
  rw [eb, es]
  show bestValue ce tool sx sy vb = singleValue tool bin sx sy vb
  unfold bestValue singleValue
  rw [hav]
  simp only [loopValue]
  rcases hts : toSizes (quadList tool bin sx sy) with e | ⟨ncx, ncy, ncxy, ncyx⟩
  · rfl
  · obtain ⟨h1, h2, h3, h4⟩ := quadList_ok_inv hts
    rw [← h1] at hbx
    rw [← h2] at hby
    rw [← h3] at hbxy
    rw [← h4] at hbyx
    show finishValue vb (min (10 * sx) ncx) (min (10 * sy) ncy)
        (min (10 * sx + 10 * sy) ncxy) (min (10 * sx + 10 * sy) ncyx)
      = finishValue vb ncx ncy ncxy ncyx
    rw [min_eq_right hbx, min_eq_right hby, min_eq_right hbxy, min_eq_right hbyx]

/-- Witness for C6's amended theorem: sizes 5 and 7 with the gzip-like tool
stay within the bounds, and the two modes agree. -/
theorem best_of_all_single_family_agrees_witness :
    (compute_ncd gzipHost steadyTool (.input 0) (.input 1) none true (FS.init 5 7)).1 =
      (compute_ncd gzipHost steadyTool (.input 0) (.input 1) (some "LZ77") true
        (FS.init 5 7)).1 :=
  best_of_all_single_family_agrees gzipHost steadyTool "LZ77" "gzip" true 5 7
    steadyTool_wb (by decide) (by decide) (by decide) (by decide) (by decide)


/-- C7: whenever `compute_ncd` returns a result, it is built from a single
application of the formula `(min(cxy, cyx) - min(cx, cy)) / max(cx, cy)` to a
finalized quadruple: verbose mode returns the tuple
`(cx, cy, cxy, cyx, d)` for those same measurements and non-verbose mode
returns only `d`. -/
theorem ncd_result_matches_formula (ce : String → Bool) (tool : ToolModel) (x y : FPath)
    (comp : Option String) (vb : Bool) (fs : FS) (v : NCDRet)
    (h : (compute_ncd ce tool x y comp vb fs).1 = .ok v) :
    ∃ cx cy cxy cyx d, ncd_formula cx cy cxy cyx = .ok d ∧
      d = (((min cxy cyx : Nat) : ℚ) - ((min cx cy : Nat) : ℚ)) / ((max cx cy : Nat) : ℚ) ∧
      v = if vb then NCDRet.tuple5 cx cy cxy cyx d else NCDRet.dist d := by
  rcases compute_ncd_run ce tool x y comp vb fs with ⟨e, fs', hq⟩ | ⟨cx, cy, cxy, cyx, d, fs', hd, hq⟩
  · rw [hq] at h
    exact absurd h (by simp)
  · rw [hq] at h
    exact ⟨cx, cy, cxy, cyx, d, hd, (ncd_formula_ok_inv hd).2, (Except.ok.inj h).symm⟩

/-- Witness for C7 at a concrete verbose run. -/
theorem ncd_result_matches_formula_witness :
    ∃ cx cy cxy cyx d, ncd_formula cx cy cxy cyx = .ok d ∧
      d = (((min cxy cyx : Nat) : ℚ) - ((min cx cy : Nat) : ℚ)) / ((max cx cy : Nat) : ℚ) ∧
      (NCDRet.tuple5 25 27 32 32
          ((((min 32 32 : Nat) : ℚ) - ((min 25 27 : Nat) : ℚ)) / ((max 25 27 : Nat) : ℚ))
        : NCDRet)
        = if true then NCDRet.tuple5 cx cy cxy cyx d else NCDRet.dist d :=
  ncd_result_matches_formula gzipHost steadyTool (.input 0) (.input 1) (some "LZ77") true
    (FS.init 5 7) _ (by
      obtain ⟨fs', e, -⟩ := compute_ncd_single_run steadyTool_wb
        (show familySuffix "LZ77" = some ".gz" from rfl)
        (show List.lookup "LZ77" (available_compressors gzipHost) = some "gzip" by decide) true 5 7
      rw [e]
      rfl)

/-- C8: `available_compressors` binds each known family to the first available
candidate in its preference order and omits families with no available
candidate; on a host with only `gzip` installed the result is exactly
`{"LZ77": "gzip"}`. -/
theorem available_compressors_first_candidate (ce : String → Bool) (name : String)
    (cands : Candidates) (hmem : (name, cands) ∈ KNOWN_COMPRESSORS) :
    List.lookup name (available_compressors ce) = firstAvailable ce cands.toList ∧
    available_compressors gzipHost = [("LZ77", "gzip")] :=
  ⟨avail_aux_lookup (by decide) hmem, by decide⟩

/-- Witness for C8 at the LZ77 family on a gzip-only host. -/
theorem available_compressors_first_candidate_witness :
    List.lookup "LZ77" (available_compressors gzipHost)
        = firstAvailable gzipHost (Candidates.one "gzip").toList ∧
      available_compressors gzipHost = [("LZ77", "gzip")] :=
  available_compressors_first_candidate gzipHost "LZ77" (.one "gzip") (by decide)

/-- C9 counterexample: on the path where a tool exits 0 without producing its
expected output, the raised error skips every cleanup step: the working copy
(`tmp 0`, holding the copied input of size 1) survives the `compute_ncd` call. -/
theorem temp_file_survives_on_raise :
    (compute_ncd gzipHost ghostTool (.input 0) (.input 1) (some "LZ77") false
      (FS.init 1 2)).2.files (FPath.tmp 0) = some 1 := by
  decide

/-- C9 amended: for tools that on each invocation either exit non-zero leaving
the working copy in place or exit 0 producing their expected output, every
temporary file (working copies, compressed outputs, concatenation files) is
deleted before `compute_ncd` returns, on success and failure paths alike: the
final filesystem equals the initial one. -/
theorem no_temp_survives_wellbehaved (ce : String → Bool) (tool : ToolModel)
    (comp : Option String) (vb : Bool) (sx sy : Nat) (hW : WellBehaved tool) (q : FPath) :
    (compute_ncd ce tool (.input 0) (.input 1) comp vb (FS.init sx sy)).2.files q
      = (FS.init sx sy).files q := by
  cases comp with
  | none =>
      obtain ⟨fs', e, hp⟩ := compute_ncd_best_run hW ce vb sx sy
      rw [e]
      exact hp q
  | some fam =>
      rcases hl : List.lookup fam (available_compressors ce) with _ | bin
      · simp only [compute_ncd, hl]
        rfl
      · obtain ⟨sfx, hsfx⟩ := Option.isSome_iff_exists.mp (avail_known (mem_of_lookup hl))
        obtain ⟨fs', e, hp⟩ := compute_ncd_single_run hW hsfx hl vb sx sy
        rw [e]
        exact hp q

/-- Witness for C9's amended theorem on a concrete run. -/
theorem no_temp_survives_wellbehaved_witness :
    (compute_ncd gzipHost steadyTool (.input 0) (.input 1) (some "LZ77") false
      (FS.init 3 4)).2.files (FPath.tmp 0) = (FS.init 3 4).files (FPath.tmp 0) :=
  no_temp_survives_wellbehaved gzipHost steadyTool (some "LZ77") false 3 4
    steadyTool_wb (FPath.tmp 0)

/-- C10: in best-of-all mode with an empty available-compressor set and at
least one non-empty input, `compute_ncd` returns exactly the distance 1
derived from the pessimistic bounds, rather than reporting that no compressor
is available. -/
theorem empty_set_distance_one (ce : String → Bool) (tool : ToolModel) (sx sy : Nat)
    (hav : available_compressors ce = []) (hne : ¬(sx = 0 ∧ sy = 0)) :
    (compute_ncd ce tool (.input 0) (.input 1) none false (FS.init sx sy)).1
      = .ok (.dist 1) := by
  rw [compute_ncd_no_compressors hav tool false sx sy]
  rw [finishValue_bounds false sx sy hne]
  rfl

/-- Witness for C10 with one empty and one non-empty input. -/
theorem empty_set_distance_one_witness :
    (compute_ncd emptyHost steadyTool (.input 0) (.input 1) none false (FS.init 1 0)).1
      = .ok (.dist 1) :=
  empty_set_distance_one emptyHost steadyTool 1 0 rfl (by simp)

end Ncdlib
